import Mathlib

/-!
Verification of the tanh warping function of `GPy/util/warping_functions.py`.

The module's core class `TanhFunction` implements

  f(y)       = d * y + Σ_i a_i * tanh(b_i * (y + c_i))          (forward transform)
  fgrad_y(y) = d + Σ_i a_i * b_i * (1 - tanh(b_i * (y + c_i))^2) (Jacobian dz/dy)
  f_inv(z)   = Newton-Raphson inversion of f, vectorized over a list of entries
  fgrad_y_psi / update_grads = parameter-gradient tensors and their aggregation.

The transform acts elementwise; scalar versions of `f` and `fgrad_y` embed the
per-entry arithmetic, and lists embed the numpy arrays where the code couples
entries (the stopping criterion of `f_inv` sums absolute updates over entries).
Machine floats are modelled by real numbers.
-/

namespace GPy

open Real
open Classical

/-- Parameter state of a `TanhFunction` instance: per-term triples
`psi = [(a, b, c), ...]`, the global scalar `d`, and the optional
initial-guess hint `initial_y` stored at construction. -/
structure TanhFunction where
  psi : List (ℝ × ℝ × ℝ)
  d : ℝ
  initial_y : Option (List ℝ)

/-- Constructor `TanhFunction.__init__`: `self.psi = np.ones((n_terms, 3))`
(every entry of every triple is 1, including `c`), `self.d = 1.0`, and the
hint is stored unchanged. -/
def TanhFunction.init (n_terms : ℕ) (initial_y : Option (List ℝ)) : TanhFunction :=
  { psi := List.replicate n_terms ((1 : ℝ), (1 : ℝ), (1 : ℝ))
    d := 1
    initial_y := initial_y }

/-- Validity invariant enforced upstream by the parameter framework
(`constrain_positive` on each `a, b`, `Logexp` on `d`): all `a_i > 0`,
`b_i > 0` and `d > 0`. -/
def TanhFunction.Valid (p : TanhFunction) : Prop :=
  (∀ t ∈ p.psi, 0 < t.1 ∧ 0 < t.2.1) ∧ 0 < p.d

/-- Scalar forward transform `TanhFunction.f`:
`z = d * y` followed by `z += a * tanh(b * (y + c))` for every term. -/
noncomputable def TanhFunction.f (p : TanhFunction) (y : ℝ) : ℝ :=
  p.d * y + (p.psi.map fun t => t.1 * Real.tanh (t.2.1 * (y + t.2.2))).sum

/-- Scalar Jacobian `TanhFunction.fgrad_y`:
`GRAD = d + Σ_i a_i * b_i * D_i` with `S_i = b_i * (y + c_i)`,
`R_i = tanh(S_i)`, `D_i = 1 - R_i^2`. -/
noncomputable def TanhFunction.fgrad_y (p : TanhFunction) (y : ℝ) : ℝ :=
  p.d + (p.psi.map fun t => t.1 * t.2.1 * (1 - Real.tanh (t.2.1 * (y + t.2.2)) ^ 2)).sum

/-! ### Facts about `Real.tanh` needed below (not available in Mathlib) -/

lemma tanh_eq_one_sub (x : ℝ) : Real.tanh x = 1 - 2 / (Real.exp (2 * x) + 1) := by
  rw [Real.tanh_eq_sinh_div_cosh, Real.sinh_eq, Real.cosh_eq]
  have h1 : 0 < Real.exp x := Real.exp_pos x
  have h3 : Real.exp (2 * x) = Real.exp x * Real.exp x := by
    rw [two_mul, Real.exp_add]
  have h4 : Real.exp (-x) = (Real.exp x)⁻¹ := Real.exp_neg x
  rw [h3, h4]
  have h5 : Real.exp x + (Real.exp x)⁻¹ ≠ 0 := by positivity
  field_simp
  ring

lemma tanh_strictMono : StrictMono Real.tanh := by
  intro a b hab
  rw [tanh_eq_one_sub, tanh_eq_one_sub]
  have he : Real.exp (2 * a) < Real.exp (2 * b) := Real.exp_lt_exp.mpr (by linarith)
  have ha : 0 < Real.exp (2 * a) + 1 := by positivity
  have hd : 2 / (Real.exp (2 * b) + 1) < 2 / (Real.exp (2 * a) + 1) :=
    div_lt_div_of_pos_left (by norm_num) ha (by linarith)
  linarith

lemma tanh_lt_one (x : ℝ) : Real.tanh x < 1 := by
  rw [tanh_eq_one_sub]
  have : 0 < 2 / (Real.exp (2 * x) + 1) := by positivity
  linarith

lemma neg_one_lt_tanh (x : ℝ) : -1 < Real.tanh x := by
  rw [tanh_eq_one_sub]
  have h1 : 1 < Real.exp (2 * x) + 1 := by
    have := Real.exp_pos (2 * x); linarith
  have : 2 / (Real.exp (2 * x) + 1) < 2 / 1 :=
    div_lt_div_of_pos_left (by norm_num) one_pos h1
  norm_num at this
  linarith

lemma tanh_sq_lt_one (x : ℝ) : Real.tanh x ^ 2 < 1 := by
  have h1 := tanh_lt_one x
  have h2 := neg_one_lt_tanh x
  nlinarith

lemma tanh_pos {x : ℝ} (hx : 0 < x) : 0 < Real.tanh x := by
  have := tanh_strictMono hx
  rwa [Real.tanh_zero] at this

/-! ### Monotonicity and Jacobian bounds -/

lemma term_sum_le_term_sum (l : List (ℝ × ℝ × ℝ)) (hl : ∀ t ∈ l, 0 < t.1 ∧ 0 < t.2.1)
    {y1 y2 : ℝ} (h : y1 ≤ y2) :
    (l.map fun t => t.1 * Real.tanh (t.2.1 * (y1 + t.2.2))).sum ≤
      (l.map fun t => t.1 * Real.tanh (t.2.1 * (y2 + t.2.2))).sum := by
  induction l with
  | nil => simp
  | cons t l ih =>
    have ht := hl t (by simp)
    have hrest : ∀ u ∈ l, 0 < u.1 ∧ 0 < u.2.1 := fun u hu => hl u (by simp [hu])
    simp only [List.map_cons, List.sum_cons]
    have harg : t.2.1 * (y1 + t.2.2) ≤ t.2.1 * (y2 + t.2.2) :=
      mul_le_mul_of_nonneg_left (by linarith) (le_of_lt ht.2)
    have htanh : Real.tanh (t.2.1 * (y1 + t.2.2)) ≤ Real.tanh (t.2.1 * (y2 + t.2.2)) :=
      tanh_strictMono.monotone harg
    have := mul_le_mul_of_nonneg_left htanh (le_of_lt ht.1)
    linarith [ih hrest]

/-- Minimum-slope bound: the forward transform expands distances by at least `d`. -/
lemma TanhFunction.abs_f_sub_f_ge (p : TanhFunction) (hp : p.Valid) (u v : ℝ) :
    p.d * |u - v| ≤ |p.f u - p.f v| := by
  rcases le_total v u with h | h
  · have hsum := term_sum_le_term_sum p.psi hp.1 h
    have hf : p.d * (u - v) ≤ p.f u - p.f v := by
      simp only [TanhFunction.f]; nlinarith
    have hnn : 0 ≤ p.f u - p.f v := by nlinarith [hp.2]
    rw [abs_of_nonneg (by linarith : (0:ℝ) ≤ u - v), abs_of_nonneg hnn]
    exact hf
  · have hsum := term_sum_le_term_sum p.psi hp.1 h
    have hf : p.d * (v - u) ≤ p.f v - p.f u := by
      simp only [TanhFunction.f]; nlinarith
    have hnn : 0 ≤ p.f v - p.f u := by nlinarith [hp.2]
    rw [abs_of_nonpos (by linarith : u - v ≤ 0), abs_of_nonpos (by linarith : p.f u - p.f v ≤ 0)]
    simp only [neg_sub]
    exact hf

lemma grad_term_sum_nonneg (l : List (ℝ × ℝ × ℝ)) (hl : ∀ t ∈ l, 0 < t.1 ∧ 0 < t.2.1) (y : ℝ) :
    0 ≤ (l.map fun t => t.1 * t.2.1 * (1 - Real.tanh (t.2.1 * (y + t.2.2)) ^ 2)).sum := by
  induction l with
  | nil => simp
  | cons t l ih =>
    have ht := hl t (by simp)
    have hrest : ∀ u ∈ l, 0 < u.1 ∧ 0 < u.2.1 := fun u hu => hl u (by simp [hu])
    simp only [List.map_cons, List.sum_cons]
    have hD := tanh_sq_lt_one (t.2.1 * (y + t.2.2))
    have hab : 0 < t.1 * t.2.1 := mul_pos ht.1 ht.2
    nlinarith [ih hrest]

lemma grad_term_sum_le (l : List (ℝ × ℝ × ℝ)) (hl : ∀ t ∈ l, 0 < t.1 ∧ 0 < t.2.1) (y : ℝ) :
    (l.map fun t => t.1 * t.2.1 * (1 - Real.tanh (t.2.1 * (y + t.2.2)) ^ 2)).sum ≤
      (l.map fun t => t.1 * t.2.1).sum := by
  induction l with
  | nil => simp
  | cons t l ih =>
    have ht := hl t (by simp)
    have hrest : ∀ u ∈ l, 0 < u.1 ∧ 0 < u.2.1 := fun u hu => hl u (by simp [hu])
    simp only [List.map_cons, List.sum_cons]
    have hsq : 0 ≤ Real.tanh (t.2.1 * (y + t.2.2)) ^ 2 := sq_nonneg _
    have hab : 0 < t.1 * t.2.1 := mul_pos ht.1 ht.2
    nlinarith [ih hrest]

lemma TanhFunction.fgrad_y_pos (p : TanhFunction) (hp : p.Valid) (y : ℝ) :
    0 < p.fgrad_y y := by
  have := grad_term_sum_nonneg p.psi hp.1 y
  simp only [TanhFunction.fgrad_y]
  linarith [hp.2]

lemma TanhFunction.fgrad_y_le (p : TanhFunction) (hp : p.Valid) (y : ℝ) :
    p.fgrad_y y ≤ p.d + (p.psi.map fun t => t.1 * t.2.1).sum := by
  have := grad_term_sum_le p.psi hp.1 y
  simp only [TanhFunction.fgrad_y]
  linarith

/-! ### The Newton-Raphson inversion loop `TanhFunction.f_inv` -/

/-- Convergence tolerance of `f_inv`: the loop continues while
`np.abs(update).sum() > 1e-10`. -/
noncomputable def tol : ℝ := 1e-10

/-- Sum of absolute entries, `np.abs(update).sum()`. -/
def sumAbs (l : List ℝ) : ℝ := (l.map fun x => |x|).sum

/-- Signed sum of entries, `np.sum(update)` (used in the warning printout). -/
def sumSigned (l : List ℝ) : ℝ := l.sum

/-- One vector of Newton updates: `update = (self.f(y) - z) / self.fgrad_y(y)`,
elementwise over the entries of `y` and `z`. -/
noncomputable def newton_update (p : TanhFunction) (z y : List ℝ) : List ℝ :=
  List.zipWith (fun yi zi => (p.f yi - zi) / p.fgrad_y yi) y z

/-- One loop body: `y -= update`, elementwise. -/
noncomputable def nrStep (p : TanhFunction) (z y : List ℝ) : List ℝ :=
  List.zipWith (fun yi ui => yi - ui) y (newton_update p z y)

/-- Default initial guess of `f_inv` when the caller supplies no `y`:
`y = ((z > 0) * 1.) - (z <= 0)` (+1 where `z > 0`, -1 where `z <= 0`),
then `y *= self.initial_y` elementwise when a hint was configured. -/
noncomputable def initialGuess (p : TanhFunction) (z : List ℝ) : List ℝ :=
  let y := z.map fun zi => (if 0 < zi then (1 : ℝ) else 0) - (if zi ≤ 0 then 1 else 0)
  match p.initial_y with
  | none => y
  | some m => List.zipWith (fun a b => a * b) y m

/-- Starting vector of the loop: the caller-supplied `y` when present,
otherwise the default initial guess. -/
noncomputable def startY (p : TanhFunction) (z : List ℝ) (y? : Option (List ℝ)) : List ℝ :=
  match y? with
  | some y => y
  | none => initialGuess p z

/-- The `while it == 0 or (np.abs(update).sum() > 1e-10 and it < max_iterations)`
loop of `f_inv`. Each pass computes `update`, performs `y -= update` and
increments `it`. The source initializes `update = np.inf`, a value the guard
never inspects because `it == 0` short-circuits the disjunction on the first
pass; the `u` argument of the initial call is therefore irrelevant. `fuel` is
a structural bound on the remaining passes; it is chosen as `maxIt + 1` at the
entry call, which the guard never exhausts. -/
noncomputable def f_inv_go (p : TanhFunction) (z : List ℝ) (maxIt : ℕ) :
    ℕ → ℕ → List ℝ → List ℝ → List ℝ × ℕ × List ℝ
  | 0, it, y, u => (y, it, u)
  | fuel + 1, it, y, u =>
    if it = 0 ∨ (tol < sumAbs u ∧ it < maxIt) then
      f_inv_go p z maxIt fuel (it + 1) (nrStep p z y) (newton_update p z y)
    else
      (y, it, u)

/-- Observable outcome of one `f_inv` call: the returned vector, the number of
loop iterations performed, the last computed update vector, and the non-fatal
diagnostic (`Option.some` carries the printed `np.sum(update)` exactly when
the warning branch `if it == max_iterations` fires). -/
structure FInvResult where
  y : List ℝ
  it : ℕ
  update : List ℝ
  warning : Option ℝ

/-- Full model of `TanhFunction.f_inv`: copy `z`, pick the starting vector,
run the Newton-Raphson loop, and fire the warning printout when the loop
performed exactly `max_iterations` passes. -/
noncomputable def TanhFunction.f_inv_full (p : TanhFunction) (z : List ℝ)
    (maxIt : ℕ) (y? : Option (List ℝ)) : FInvResult :=
  let y0 := startY p z y?
  let r := f_inv_go p z maxIt (maxIt + 1) 0 y0 y0
  { y := r.1
    it := r.2.1
    update := r.2.2
    warning := if r.2.1 = maxIt then some (sumSigned r.2.2) else none }

/-- Return value of `TanhFunction.f_inv`: the last computed `y`. -/
noncomputable def TanhFunction.f_inv (p : TanhFunction) (z : List ℝ)
    (maxIt : ℕ) (y? : Option (List ℝ)) : List ℝ :=
  (p.f_inv_full z maxIt y?).y

/-- Closed form of the loop's `y` state after `k` passes. -/
noncomputable def yIter (p : TanhFunction) (z y0 : List ℝ) : ℕ → List ℝ
  | 0 => y0
  | k + 1 => nrStep p z (yIter p z y0 k)

/-- Closed form of the update vector computed on pass `k ≥ 1` (the value at 0
is a placeholder mirroring the never-inspected initial `update`). -/
noncomputable def uIter (p : TanhFunction) (z y0 : List ℝ) : ℕ → List ℝ
  | 0 => y0
  | k + 1 => newton_update p z (yIter p z y0 k)

/-- Characterization of the loop: it stops after `K` passes, where `K` is at
least 1, at most `max maxIt 1`, the stopping pass satisfies the tolerance or
hit the iteration cap, every earlier pass exceeded the tolerance, and the
final state is the `K`-th iterate. -/
lemma f_inv_go_spec (p : TanhFunction) (z y0 : List ℝ) (maxIt : ℕ) :
    ∀ fuel it u, maxIt + 1 ≤ fuel + it →
      (it = 0 ∧ u = y0) ∨ (1 ≤ it ∧ u = uIter p z y0 it) →
      ∃ K, f_inv_go p z maxIt fuel it (yIter p z y0 it) u =
            (yIter p z y0 K, K, uIter p z y0 K) ∧
          it ≤ K ∧ 1 ≤ K ∧ K ≤ max (max maxIt 1) it ∧
          (sumAbs (uIter p z y0 K) ≤ tol ∨ maxIt ≤ K) ∧
          ∀ j, 1 ≤ j → it ≤ j → j < K → tol < sumAbs (uIter p z y0 j) := by
  intro fuel
  induction fuel with
  | zero =>
    intro it u hfuel hu
    have hit : maxIt + 1 ≤ it := by omega
    have hit1 : 1 ≤ it := by omega
    rcases hu with ⟨h0, _⟩ | ⟨_, hu⟩
    · omega
    refine ⟨it, ?_, le_refl it, hit1, le_max_right _ _, Or.inr (by omega), ?_⟩
    · simp [f_inv_go, hu]
    · intro j _ h1 h2; omega
  | succ fuel ih =>
    intro it u hfuel hu
    simp only [f_inv_go]
    split_ifs with hc
    · have hrec := ih (it + 1) (uIter p z y0 (it + 1)) (by omega)
        (Or.inr ⟨by omega, rfl⟩)
      have hstep : nrStep p z (yIter p z y0 it) = yIter p z y0 (it + 1) := rfl
      have hupd : newton_update p z (yIter p z y0 it) = uIter p z y0 (it + 1) := rfl
      rw [hstep, hupd]
      obtain ⟨K, hEq, hle, h1, hmax, hstop, hmin⟩ := hrec
      refine ⟨K, hEq, by omega, h1, ?_, hstop, ?_⟩
      · rcases hc with h0 | ⟨_, hlt⟩
        · subst h0; omega
        · omega
      · intro j hj1 hjit hjK
        rcases Nat.eq_or_lt_of_le hjit with hj | hj
        · subst hj
          rcases hc with h0 | ⟨htol, _⟩
          · omega
          · rcases hu with ⟨h0, _⟩ | ⟨_, hu⟩
            · omega
            · rwa [← hu]
        · exact hmin j hj1 (by omega) hjK
    · push_neg at hc
      obtain ⟨hit0, hc2⟩ := hc
      rcases hu with ⟨h0, _⟩ | ⟨hit1, hu⟩
      · exact absurd h0 hit0
      refine ⟨it, by rw [hu], le_refl it, hit1, le_max_right _ _, ?_, ?_⟩
      · rcases le_or_lt maxIt it with h | h
        · exact Or.inr h
        · left
          rw [← hu]
          by_contra hlt
          exact absurd (hc2 (lt_of_not_le hlt)) (by omega)
      · intro j _ h1 h2; omega

/-- Characterization of `f_inv_full` in terms of the iterate sequences. -/
lemma f_inv_full_spec (p : TanhFunction) (z : List ℝ) (maxIt : ℕ)
    (y? : Option (List ℝ)) :
    ∃ K, p.f_inv_full z maxIt y? =
          { y := yIter p z (startY p z y?) K
            it := K
            update := uIter p z (startY p z y?) K
            warning := if K = maxIt
              then some (sumSigned (uIter p z (startY p z y?) K)) else none } ∧
        1 ≤ K ∧ K ≤ max maxIt 1 ∧
        (sumAbs (uIter p z (startY p z y?) K) ≤ tol ∨ maxIt ≤ K) ∧
        ∀ j, 1 ≤ j → j < K → tol < sumAbs (uIter p z (startY p z y?) j) := by
  obtain ⟨K, hEq, _, h1, hmax, hstop, hmin⟩ :=
    f_inv_go_spec p z (startY p z y?) maxIt (maxIt + 1) 0 (startY p z y?)
      (by omega) (Or.inl ⟨rfl, rfl⟩)
  refine ⟨K, ?_, h1, by omega, hstop, fun j hj1 hjK => hmin j hj1 (by omega) hjK⟩
  have hEq' : f_inv_go p z maxIt (maxIt + 1) 0 (startY p z y?) (startY p z y?) =
      (yIter p z (startY p z y?) K, K, uIter p z (startY p z y?) K) := hEq
  simp only [TanhFunction.f_inv_full, hEq']

/-! ### List access helpers -/

lemma sumAbs_nonneg (l : List ℝ) : 0 ≤ sumAbs l := by
  apply List.sum_nonneg
  intro x hx
  obtain ⟨a, _, rfl⟩ := List.mem_map.1 hx
  exact abs_nonneg a

lemma abs_getElem_le_sumAbs (l : List ℝ) (i : ℕ) (h : i < l.length) :
    |l[i]| ≤ sumAbs l := by
  have hlen : i < (l.map fun x => |x|).length := by simpa using h
  have hx : (l.map fun x => |x|)[i] = |l[i]| := List.getElem_map _
  have hmem : |l[i]| ∈ l.map fun x => |x| := by
    rw [← hx]; exact List.getElem_mem hlen
  apply List.single_le_sum _ _ hmem
  intro x hx'
  obtain ⟨a, _, rfl⟩ := List.mem_map.1 hx'
  exact abs_nonneg a

lemma tol_pos : 0 < tol := by
  simp only [tol]; norm_num

lemma yIter_length (p : TanhFunction) (z y0 : List ℝ) (h : y0.length = z.length) :
    ∀ k, (yIter p z y0 k).length = z.length
  | 0 => h
  | k + 1 => by
    simp only [yIter, nrStep, newton_update, List.length_zipWith,
      yIter_length p z y0 h k, min_self]

lemma uIter_length (p : TanhFunction) (z y0 : List ℝ) (h : y0.length = z.length)
    (k : ℕ) : (uIter p z y0 (k + 1)).length = z.length := by
  simp only [uIter, newton_update, List.length_zipWith, yIter_length p z y0 h k, min_self]

lemma uIter_getElem (p : TanhFunction) (z y0 : List ℝ) (k i : ℕ)
    (hy : i < (yIter p z y0 k).length) (hz : i < z.length)
    (hu : i < (uIter p z y0 (k + 1)).length) :
    (uIter p z y0 (k + 1))[i] =
      (p.f ((yIter p z y0 k)[i]) - z[i]) / p.fgrad_y ((yIter p z y0 k)[i]) := by
  simp only [uIter, newton_update] at hu ⊢
  rw [List.getElem_zipWith]

lemma yIter_succ_getElem (p : TanhFunction) (z y0 : List ℝ) (k i : ℕ)
    (hy : i < (yIter p z y0 k).length) (hu : i < (uIter p z y0 (k + 1)).length)
    (hys : i < (yIter p z y0 (k + 1)).length) :
    (yIter p z y0 (k + 1))[i] = (yIter p z y0 k)[i] - (uIter p z y0 (k + 1))[i] := by
  simp only [yIter, uIter, nrStep] at hys ⊢
  rw [List.getElem_zipWith]

/-- When the very first update already meets the tolerance, the loop stops
after exactly one pass. -/
lemma f_inv_full_stop_first (p : TanhFunction) (z : List ℝ) (maxIt : ℕ)
    (y? : Option (List ℝ))
    (h1 : sumAbs (newton_update p z (startY p z y?)) ≤ tol) :
    p.f_inv_full z maxIt y? =
      { y := nrStep p z (startY p z y?)
        it := 1
        update := newton_update p z (startY p z y?)
        warning := if 1 = maxIt
          then some (sumSigned (newton_update p z (startY p z y?))) else none } := by
  obtain ⟨K, hEq, hK1, hmax, hstop, hmin⟩ := f_inv_full_spec p z maxIt y?
  have hK : K = 1 := by
    by_contra hne
    have h2 : 2 ≤ K := by omega
    have hlt := hmin 1 (by omega) (by omega)
    have hu1 : uIter p z (startY p z y?) 1 = newton_update p z (startY p z y?) := rfl
    rw [hu1] at hlt
    linarith
  subst hK
  rw [hEq]
  rfl

/-! ### A concrete one-term instance: a = b = 1, c = 0, d = 1 -/

/-- One-term instance with `a = b = 1`, `c = 0`, `d = 1` and no hint, as used
by the spec's concrete scenarios. -/
noncomputable def p0 : TanhFunction := ⟨[(1, 1, 0)], 1, none⟩

lemma p0_valid : p0.Valid := by
  constructor
  · intro t ht
    simp only [p0, List.mem_singleton] at ht
    subst ht
    norm_num
  · norm_num [p0]

lemma p0_f (y : ℝ) : p0.f y = y + Real.tanh y := by
  simp [p0, TanhFunction.f]

lemma p0_fgrad_y (y : ℝ) : p0.fgrad_y y = 2 - Real.tanh y ^ 2 := by
  simp [p0, TanhFunction.fgrad_y]
  ring

/-- Starting vector for a one-entry nonpositive `z` and no hint. -/
lemma startY_single_nonpos (p : TanhFunction) (hinit : p.initial_y = none)
    (z0 : ℝ) (hz : z0 ≤ 0) : startY p [z0] none = [-1] := by
  simp only [startY, initialGuess, hinit, List.map_cons, List.map_nil]
  rw [if_neg (by linarith), if_pos hz]
  norm_num

/-- Starting vector for a one-entry positive `z` and no hint. -/
lemma startY_single_pos (p : TanhFunction) (hinit : p.initial_y = none)
    (z0 : ℝ) (hz : 0 < z0) : startY p [z0] none = [1] := by
  simp only [startY, initialGuess, hinit, List.map_cons, List.map_nil]
  rw [if_pos hz, if_neg (by linarith)]
  norm_num

/-! ### Claim theorems: monotonicity, Jacobian positivity, termination, diagnostics -/

/-- Claim C2: for every parameter set with all `a_i > 0`, `b_i > 0` and
`d > 0`, the forward transform is strictly increasing on scalar entries:
`y1 < y2` implies `f(y1) < f(y2)`. -/
theorem TanhFunction.f_strictly_increasing (p : TanhFunction) (hp : p.Valid)
    {y1 y2 : ℝ} (h : y1 < y2) : p.f y1 < p.f y2 := by
  have hsum := term_sum_le_term_sum p.psi hp.1 (le_of_lt h)
  have hlin := mul_lt_mul_of_pos_left h hp.2
  simp only [TanhFunction.f]
  linarith

/-- Witness for C2 at `p0`, `y1 = 0 < 1 = y2`. -/
theorem TanhFunction.f_strictly_increasing_witness :
    p0.Valid ∧ (0 : ℝ) < 1 ∧ p0.f 0 < p0.f 1 :=
  ⟨p0_valid, by norm_num,
    TanhFunction.f_strictly_increasing p0 p0_valid (by norm_num)⟩

/-- Claim C3: for every parameter set with all `a_i > 0`, `b_i > 0`, `d > 0`
and every (finite) input, the Jacobian `fgrad_y` is strictly positive. -/
theorem TanhFunction.fgrad_y_positive (p : TanhFunction) (hp : p.Valid)
    (y : ℝ) : 0 < p.fgrad_y y :=
  p.fgrad_y_pos hp y

/-- Witness for C3 at `p0`, `y = 0`. -/
theorem TanhFunction.fgrad_y_positive_witness :
    p0.Valid ∧ 0 < p0.fgrad_y 0 :=
  ⟨p0_valid, TanhFunction.fgrad_y_positive p0 p0_valid 0⟩

/-- Claim C4: for every input `z` and every `max_iterations ≥ 1`, the loop in
`f_inv` performs at least one pass and terminates: it stops at the first pass
count `k ≥ 1` at which the summed absolute update meets the `1e-10` tolerance,
or after `max_iterations` passes, whichever comes first, and the returned
state is the `k`-th Newton iterate. -/
theorem TanhFunction.f_inv_loop_terminates (p : TanhFunction) (z : List ℝ)
    (maxIt : ℕ) (y? : Option (List ℝ)) (hmax : 1 ≤ maxIt) :
    1 ≤ (p.f_inv_full z maxIt y?).it ∧
    (p.f_inv_full z maxIt y?).it ≤ maxIt ∧
    (sumAbs (p.f_inv_full z maxIt y?).update ≤ tol ∨
      (p.f_inv_full z maxIt y?).it = maxIt) ∧
    (∀ j, 1 ≤ j → j < (p.f_inv_full z maxIt y?).it →
      tol < sumAbs (uIter p z (startY p z y?) j)) ∧
    (p.f_inv_full z maxIt y?).y =
      yIter p z (startY p z y?) ((p.f_inv_full z maxIt y?).it) ∧
    (p.f_inv_full z maxIt y?).update =
      uIter p z (startY p z y?) ((p.f_inv_full z maxIt y?).it) := by
  obtain ⟨K, hEq, hK1, hmaxK, hstop, hmin⟩ := f_inv_full_spec p z maxIt y?
  have hit : (p.f_inv_full z maxIt y?).it = K := by rw [hEq]
  have hy : (p.f_inv_full z maxIt y?).y = yIter p z (startY p z y?) K := by rw [hEq]
  have hupd : (p.f_inv_full z maxIt y?).update = uIter p z (startY p z y?) K := by rw [hEq]
  rw [hit, hy, hupd]
  have hKle : K ≤ maxIt := by omega
  refine ⟨hK1, hKle, ?_, hmin, rfl, rfl⟩
  rcases hstop with h | h
  · exact Or.inl h
  · exact Or.inr (by omega)

/-- Witness for C4 at `p0`, `z = [0]`, supplied guess `[0]`, cap 100. -/
theorem TanhFunction.f_inv_loop_terminates_witness :
    1 ≤ 100 ∧ 1 ≤ (p0.f_inv_full [0] 100 (some [0])).it ∧
      (p0.f_inv_full [0] 100 (some [0])).it ≤ 100 :=
  ⟨by norm_num,
    (TanhFunction.f_inv_loop_terminates p0 [0] 100 (some [0]) (by norm_num)).1,
    (TanhFunction.f_inv_loop_terminates p0 [0] 100 (some [0]) (by norm_num)).2.1⟩

/-- Counterexample to claim C5 as stated: with `max_iterations = 1` and
`z = [f(-1)]`, the sole Newton update is zero, so the tolerance is satisfied,
yet the warning fires (the code tests `it == max_iterations`, not whether the
tolerance was missed). -/
theorem TanhFunction.f_inv_warning_counterexample :
    (p0.f_inv_full [p0.f (-1)] 1 none).warning = some 0 ∧
    sumAbs (p0.f_inv_full [p0.f (-1)] 1 none).update ≤ tol := by
  have hz : p0.f (-1) ≤ 0 := by
    rw [p0_f]
    have h1 : Real.tanh (-1) < Real.tanh 0 := tanh_strictMono (by norm_num)
    rw [Real.tanh_zero] at h1
    linarith
  have hstart : startY p0 [p0.f (-1)] none = [-1] := startY_single_nonpos p0 rfl _ hz
  have hupd : newton_update p0 [p0.f (-1)] (startY p0 [p0.f (-1)] none) = [0] := by
    rw [hstart]
    simp [newton_update]
  have hsum : sumAbs (newton_update p0 [p0.f (-1)] (startY p0 [p0.f (-1)] none)) ≤ tol := by
    rw [hupd]
    simp [sumAbs]
    exact le_of_lt tol_pos
  have hfull := f_inv_full_stop_first p0 [p0.f (-1)] 1 none hsum
  have hw : (p0.f_inv_full [p0.f (-1)] 1 none).warning =
      if (1 : ℕ) = 1
        then some (sumSigned (newton_update p0 [p0.f (-1)] (startY p0 [p0.f (-1)] none)))
        else none := by
    rw [hfull]
  have hu : (p0.f_inv_full [p0.f (-1)] 1 none).update =
      newton_update p0 [p0.f (-1)] (startY p0 [p0.f (-1)] none) := by
    rw [hfull]
  refine ⟨?_, by rw [hu]; exact hsum⟩
  rw [hw, hupd]
  simp [sumSigned]

/-- Claim C5, amended: the convergence diagnostic (carrying the signed sum of
the final update vector) is emitted exactly when the loop performed
`max_iterations` passes — including the case where the tolerance was first
satisfied on that final pass — and in every case the caller receives the last
computed `y` (the function is total; it never raises). -/
theorem TanhFunction.f_inv_warning_iff (p : TanhFunction) (z : List ℝ)
    (maxIt : ℕ) (y? : Option (List ℝ)) :
    ((p.f_inv_full z maxIt y?).warning =
      if (p.f_inv_full z maxIt y?).it = maxIt
        then some (sumSigned (p.f_inv_full z maxIt y?).update) else none) ∧
    ((p.f_inv_full z maxIt y?).warning.isSome ↔
      (p.f_inv_full z maxIt y?).it = maxIt) ∧
    (p.f_inv_full z maxIt y?).y =
      yIter p z (startY p z y?) ((p.f_inv_full z maxIt y?).it) := by
  obtain ⟨K, hEq, _⟩ := f_inv_full_spec p z maxIt y?
  rw [hEq]
  refine ⟨rfl, ?_, rfl⟩
  by_cases h : K = maxIt
  · simp [h]
  · simp [h]

/-! ### Concrete scenario B (claim C8) -/

/-- Counterexample to claim C8 as stated: for the one-term instance
`a = b = 1, c = 0, d = 1` with no hint, `f_inv([0])` does not stop after
1 iteration. The default initialization puts `y0 = -1` (since `0 > 0` is
false), and the first update `(f(-1) - 0) / fgrad_y(-1)` has magnitude
`(1 + tanh 1) / (2 - tanh(1)^2) > 1/2`, far above the `1e-10` tolerance. -/
theorem TanhFunction.f_inv_scenarioB_counterexample :
    (p0.f_inv_full [0] 100 none).it ≠ 1 := by
  obtain ⟨K, hEq, hK1, hmax, hstop, hmin⟩ := f_inv_full_spec p0 [0] 100 none
  have hit : (p0.f_inv_full [0] 100 none).it = K := by rw [hEq]
  rw [hit]
  intro hK
  subst hK
  rcases hstop with h | h
  · have hstart : startY p0 [0] none = [-1] :=
      startY_single_nonpos p0 rfl 0 (le_refl 0)
    rw [hstart] at h
    have hu1 : uIter p0 [0] [-1] 1 = [(p0.f (-1) - 0) / p0.fgrad_y (-1)] := by
      simp [uIter, yIter, newton_update]
    rw [hu1] at h
    have ht0 : 0 < Real.tanh 1 := tanh_pos one_pos
    have ht1 : Real.tanh 1 < 1 := tanh_lt_one 1
    have hfv : p0.f (-1) - 0 = -(1 + Real.tanh 1) := by
      rw [p0_f]
      have : Real.tanh (-1) = -Real.tanh 1 := Real.tanh_neg 1
      rw [this]
      ring
    have hgv : p0.fgrad_y (-1) = 2 - Real.tanh 1 ^ 2 := by
      rw [p0_fgrad_y]
      have : Real.tanh (-1) = -Real.tanh 1 := Real.tanh_neg 1
      rw [this]
      ring
    rw [hfv, hgv] at h
    have hden : 0 < 2 - Real.tanh 1 ^ 2 := by nlinarith
    have habs : sumAbs [-(1 + Real.tanh 1) / (2 - Real.tanh 1 ^ 2)] =
        (1 + Real.tanh 1) / (2 - Real.tanh 1 ^ 2) := by
      simp only [sumAbs, List.map_cons, List.map_nil, List.sum_cons, List.sum_nil, add_zero]
      rw [abs_div, abs_of_nonpos (by linarith : -(1 + Real.tanh 1) ≤ 0),
        abs_of_pos hden]
      ring_nf
    rw [habs] at h
    have hlarge : tol < (1 + Real.tanh 1) / (2 - Real.tanh 1 ^ 2) := by
      rw [lt_div_iff₀ hden]
      simp only [tol]
      nlinarith
    linarith
  · omega

/-- Claim C8, amended: with the parameters `a = b = 1, c = 0, d = 1` and the
initial guess `y = [0]` supplied by the caller, `f_inv([0])` stops after
exactly 1 Newton-Raphson iteration with update `[0]` (below tolerance) and
returns exactly `[0]`; the unamended claim fails because the default
initialization starts from `-1`, not `0`. -/
theorem TanhFunction.f_inv_scenarioB_with_guess :
    p0.f_inv_full [0] 100 (some [0]) =
      { y := [0], it := 1, update := [0], warning := none } := by
  have hstart : startY p0 [0] (some [0]) = [0] := rfl
  have hupd : newton_update p0 [0] [0] = [0] := by
    simp [newton_update, p0_f]
  have hsum : sumAbs (newton_update p0 [0] (startY p0 [0] (some [0]))) ≤ tol := by
    rw [hstart, hupd]
    simp [sumAbs]
    exact le_of_lt tol_pos
  have hfull := f_inv_full_stop_first p0 [0] 100 (some [0]) hsum
  rw [hfull, hstart]
  have hstep : nrStep p0 [0] [0] = [0] := by
    simp [nrStep, newton_update, p0_f]
  rw [hstep, hupd]
  norm_num

/-! ### Round-trip accuracy of the inversion (claim C1) -/

lemma startY_length (p : TanhFunction) (z : List ℝ) (y? : Option (List ℝ))
    (hlen : ∀ m ∈ y?, m.length = z.length)
    (hinit : ∀ m ∈ p.initial_y, z.length ≤ m.length) :
    (startY p z y?).length = z.length := by
  cases y? with
  | some m => exact hlen m rfl
  | none =>
    simp only [startY, initialGuess]
    cases hm : p.initial_y with
    | none => simp
    | some m =>
      have := hinit m hm
      simp only [List.length_zipWith, List.length_map]
      omega

/-- Claim C1, amended: under the additional hypothesis that the maximal slope
`d + Σ_i a_i b_i` is at most `9999 · d` (a bounded slope ratio), whenever the
loop's final summed absolute update meets the `1e-10` tolerance, every entry
of `f_inv(f(y))` is within `1e-6` of the corresponding entry of `y`. Without
the slope-ratio bound the claim is false (see the counterexample). -/
theorem TanhFunction.f_inv_roundtrip (p : TanhFunction) (hp : p.Valid)
    (y : List ℝ) (hy : ∀ a ∈ y, -5 ≤ a ∧ a ≤ 5)
    (maxIt : ℕ) (y? : Option (List ℝ))
    (hlen : ∀ m ∈ y?, m.length = (y.map p.f).length)
    (hinit : ∀ m ∈ p.initial_y, (y.map p.f).length ≤ m.length)
    (hslope : p.d + (p.psi.map fun t => t.1 * t.2.1).sum ≤ 9999 * p.d)
    (hconv : sumAbs ((p.f_inv_full (y.map p.f) maxIt y?).update) ≤ tol) :
    ∀ i, ∀ hi : i < y.length,
      ∀ hr : i < ((p.f_inv_full (y.map p.f) maxIt y?).y).length,
      |((p.f_inv_full (y.map p.f) maxIt y?).y)[i] - y[i]| ≤ 1e-6 := by
  obtain ⟨K, hEq, hK1, hmax, hstop, hmin⟩ := f_inv_full_spec p (y.map p.f) maxIt y?
  obtain ⟨k, rfl⟩ : ∃ k, K = k + 1 := ⟨K - 1, by omega⟩
  have hupdEq : (p.f_inv_full (y.map p.f) maxIt y?).update =
      uIter p (y.map p.f) (startY p (y.map p.f) y?) (k + 1) := by rw [hEq]
  have hyEq : (p.f_inv_full (y.map p.f) maxIt y?).y =
      yIter p (y.map p.f) (startY p (y.map p.f) y?) (k + 1) := by rw [hEq]
  rw [hupdEq] at hconv
  intro i hi hr
  have hzlen : (y.map p.f).length = y.length := List.length_map y p.f
  have hy0len : (startY p (y.map p.f) y?).length = (y.map p.f).length :=
    startY_length p (y.map p.f) y? hlen hinit
  have hwlen : (yIter p (y.map p.f) (startY p (y.map p.f) y?) k).length =
      (y.map p.f).length := yIter_length p (y.map p.f) _ hy0len k
  have hulen : (uIter p (y.map p.f) (startY p (y.map p.f) y?) (k + 1)).length =
      (y.map p.f).length := uIter_length p (y.map p.f) _ hy0len k
  have hyKlen : (yIter p (y.map p.f) (startY p (y.map p.f) y?) (k + 1)).length =
      (y.map p.f).length := yIter_length p (y.map p.f) _ hy0len (k + 1)
  have hiz : i < (y.map p.f).length := by omega
  have hiw : i < (yIter p (y.map p.f) (startY p (y.map p.f) y?) k).length := by omega
  have hiu : i < (uIter p (y.map p.f) (startY p (y.map p.f) y?) (k + 1)).length := by omega
  have hiK : i < (yIter p (y.map p.f) (startY p (y.map p.f) y?) (k + 1)).length := by omega
  have hgy : ((p.f_inv_full (y.map p.f) maxIt y?).y)[i] =
      (yIter p (y.map p.f) (startY p (y.map p.f) y?) (k + 1))[i] :=
    List.getElem_of_eq hyEq hr
  rw [hgy]
  -- the final update entry is small
  have hsmall : |(uIter p (y.map p.f) (startY p (y.map p.f) y?) (k + 1))[i]| ≤ tol :=
    le_trans (abs_getElem_le_sumAbs _ i hiu) hconv
  -- name the k-th iterate entry
  set w := (yIter p (y.map p.f) (startY p (y.map p.f) y?) k)[i] with hw
  have hgetu : (uIter p (y.map p.f) (startY p (y.map p.f) y?) (k + 1))[i] =
      (p.f w - (y.map p.f)[i]) / p.fgrad_y w :=
    uIter_getElem p (y.map p.f) _ k i hiw hiz hiu
  have hzget : (y.map p.f)[i] = p.f (y[i]) := List.getElem_map p.f
  have hg : 0 < p.fgrad_y w := p.fgrad_y_pos hp w
  have hgM : p.fgrad_y w ≤ p.d + (p.psi.map fun t => t.1 * t.2.1).sum :=
    p.fgrad_y_le hp w
  have hsmall' : |(p.f w - p.f (y[i])) / p.fgrad_y w| ≤ tol := by
    rw [← hzget, ← hgetu]
    exact hsmall
  have hres : |p.f w - p.f (y[i])| ≤ tol * p.fgrad_y w := by
    rw [abs_div, abs_of_pos hg, div_le_iff₀ hg] at hsmall'
    linarith [hsmall']
  have hresM : |p.f w - p.f (y[i])| ≤ tol * (9999 * p.d) := by
    have h1 : tol * p.fgrad_y w ≤ tol * (9999 * p.d) := by
      apply mul_le_mul_of_nonneg_left _ (le_of_lt tol_pos)
      linarith
    linarith
  have hdist : p.d * |w - y[i]| ≤ tol * (9999 * p.d) :=
    le_trans (p.abs_f_sub_f_ge hp w (y[i])) hresM
  have hwy : |w - y[i]| ≤ tol * 9999 := by
    have h2 : p.d * |w - y[i]| ≤ p.d * (tol * 9999) := by
      calc p.d * |w - y[i]| ≤ tol * (9999 * p.d) := hdist
        _ = p.d * (tol * 9999) := by ring
    exact (mul_le_mul_left hp.2).mp h2
  have hgetK : (yIter p (y.map p.f) (startY p (y.map p.f) y?) (k + 1))[i] =
      w - (uIter p (y.map p.f) (startY p (y.map p.f) y?) (k + 1))[i] :=
    yIter_succ_getElem p (y.map p.f) _ k i hiw hiu hiK
  rw [hgetK]
  have htri : |w - (uIter p (y.map p.f) (startY p (y.map p.f) y?) (k + 1))[i] - y[i]| ≤
      |w - y[i]| + |(uIter p (y.map p.f) (startY p (y.map p.f) y?) (k + 1))[i]| := by
    calc |w - (uIter p (y.map p.f) (startY p (y.map p.f) y?) (k + 1))[i] - y[i]|
        = |(w - y[i]) + (-(uIter p (y.map p.f) (startY p (y.map p.f) y?) (k + 1))[i])| := by
          ring_nf
      _ ≤ |w - y[i]| + |-(uIter p (y.map p.f) (startY p (y.map p.f) y?) (k + 1))[i]| :=
          abs_add _ _
      _ = |w - y[i]| + |(uIter p (y.map p.f) (startY p (y.map p.f) y?) (k + 1))[i]| := by
          rw [abs_neg]
  have htol : tol * 9999 + tol = 1e-6 := by
    simp only [tol]; norm_num
  linarith

/-- Parameter set with one extremely steep term (`b = 1e12`) centred at
`y = 1` (`c = -1`) used to refute the unamended round-trip claim. -/
noncomputable def p_c1 : TanhFunction := ⟨[(1, 1e12, -1)], 1, none⟩

lemma p_c1_valid : p_c1.Valid := by
  constructor
  · intro t ht
    simp only [p_c1, List.mem_singleton] at ht
    subst ht
    norm_num
  · norm_num [p_c1]

lemma p_c1_f (v : ℝ) : p_c1.f v = v + Real.tanh (1e12 * (v + -1)) := by
  simp [p_c1, TanhFunction.f]

lemma p_c1_fgrad (v : ℝ) :
    p_c1.fgrad_y v = 1 + 1e12 * (1 - Real.tanh (1e12 * (v + -1)) ^ 2) := by
  simp [p_c1, TanhFunction.fgrad_y]

/-- Counterexample to claim C1 as stated: for the valid parameter set
`a = 1, b = 1e12, c = -1, d = 1` and input `y = [1.001] ⊆ [-5, 5]`, the
inversion of `f(y)` "converges" on its very first pass (the update magnitude
is about `1e-12`, below the `1e-10` tolerance, because the Jacobian at the
starting point `y0 = 1` is about `1e12`), yet the returned entry is about
`1`, an error of about `1e-3 > 1e-6` from the true preimage `1.001`. -/
theorem TanhFunction.f_inv_roundtrip_counterexample :
    p_c1.Valid ∧ (∀ a ∈ [(1.001 : ℝ)], -5 ≤ a ∧ a ≤ 5) ∧
    sumAbs ((p_c1.f_inv_full ([(1.001 : ℝ)].map p_c1.f) 100 none).update) ≤ tol ∧
    (p_c1.f_inv_full ([(1.001 : ℝ)].map p_c1.f) 100 none).it < 100 ∧
    1e-6 < |((p_c1.f_inv_full ([(1.001 : ℝ)].map p_c1.f) 100 none).y).headI - 1.001| := by
  have harg : (1e12 : ℝ) * (1.001 + -1) = 1e9 := by norm_num
  have hT0 : 0 < Real.tanh 1e9 := tanh_pos (by norm_num)
  have hT1 : Real.tanh 1e9 < 1 := tanh_lt_one _
  have hmap : [(1.001 : ℝ)].map p_c1.f = [p_c1.f 1.001] := by simp
  have hfz : p_c1.f 1.001 = 1.001 + Real.tanh 1e9 := by
    rw [p_c1_f, harg]
  have hz0 : 0 < p_c1.f 1.001 := by rw [hfz]; linarith
  have hstart : startY p_c1 [p_c1.f 1.001] none = [1] :=
    startY_single_pos p_c1 rfl _ hz0
  have hf1 : p_c1.f 1 = 1 := by
    rw [p_c1_f]
    norm_num
  have hg1 : p_c1.fgrad_y 1 = 1 + 1e12 := by
    rw [p_c1_fgrad]
    norm_num
  have hu1 : newton_update p_c1 [p_c1.f 1.001] [1] =
      [(1 - (1.001 + Real.tanh 1e9)) / (1 + 1e12)] := by
    simp only [newton_update, List.zipWith_cons_cons, List.zipWith_nil_right]
    rw [hf1, hg1, hfz]
  have habs : sumAbs [(1 - (1.001 + Real.tanh 1e9)) / (1 + 1e12)] =
      (0.001 + Real.tanh 1e9) / (1 + 1e12) := by
    simp only [sumAbs, List.map_cons, List.map_nil, List.sum_cons, List.sum_nil, add_zero]
    rw [abs_div, abs_of_nonpos (by linarith : 1 - (1.001 + Real.tanh 1e9) ≤ 0),
      abs_of_pos (by norm_num : (0:ℝ) < 1 + 1e12)]
    ring_nf
  have hsum : sumAbs (newton_update p_c1 [p_c1.f 1.001]
      (startY p_c1 [p_c1.f 1.001] none)) ≤ tol := by
    rw [hstart, hu1, habs]
    rw [div_le_iff₀ (by norm_num : (0:ℝ) < 1 + 1e12)]
    simp only [tol]
    nlinarith
  have hfull := f_inv_full_stop_first p_c1 [p_c1.f 1.001] 100 none hsum
  have hy : (p_c1.f_inv_full [p_c1.f 1.001] 100 none).y =
      nrStep p_c1 [p_c1.f 1.001] (startY p_c1 [p_c1.f 1.001] none) := by rw [hfull]
  have hit : (p_c1.f_inv_full [p_c1.f 1.001] 100 none).it = 1 := by rw [hfull]
  have hupd : (p_c1.f_inv_full [p_c1.f 1.001] 100 none).update =
      newton_update p_c1 [p_c1.f 1.001] (startY p_c1 [p_c1.f 1.001] none) := by
    rw [hfull]
  refine ⟨p_c1_valid, by norm_num, ?_, ?_, ?_⟩
  · rw [hmap, hupd]
    exact hsum
  · rw [hmap, hit]
    norm_num
  · rw [hmap, hy, hstart]
    have hstep : nrStep p_c1 [p_c1.f 1.001] [1] =
        [1 - (1 - (1.001 + Real.tanh 1e9)) / (1 + 1e12)] := by
      simp only [nrStep]
      rw [show newton_update p_c1 [p_c1.f 1.001] [1] =
        [(1 - (1.001 + Real.tanh 1e9)) / (1 + 1e12)] from hu1]
      simp
    rw [hstep]
    simp only [List.headI]
    have hneg : (1 - (1.001 + Real.tanh 1e9)) / (1 + 1e12) =
        -((0.001 + Real.tanh 1e9) / (1 + 1e12)) := by
      rw [show (1 : ℝ) - (1.001 + Real.tanh 1e9) = -(0.001 + Real.tanh 1e9) by ring,
        neg_div]
    have hrw : 1 - (1 - (1.001 + Real.tanh 1e9)) / (1 + 1e12) - 1.001 =
        (0.001 + Real.tanh 1e9) / (1 + 1e12) - 0.001 := by
      rw [hneg]; ring
    have hdpos : (0:ℝ) < (0.001 + Real.tanh 1e9) / (1 + 1e12) := by positivity
    have hdlt : (0.001 + Real.tanh 1e9) / (1 + 1e12) < 0.000999 := by
      rw [div_lt_iff₀ (by norm_num : (0:ℝ) < 1 + 1e12)]
      nlinarith
    rw [hrw, abs_of_neg (by linarith : (0.001 + Real.tanh 1e9) / (1 + 1e12) - 0.001 < 0)]
    have h6 : (1e-6 : ℝ) = 0.000001 := by norm_num
    rw [h6]
    linarith

/-- Witness for the amended C1 at `p0`, `y = [1]`: the starting guess is
exactly the preimage, so the first update is zero and the loop stops at once
within tolerance. -/
theorem TanhFunction.f_inv_roundtrip_witness :
    p0.Valid ∧
    (∀ a ∈ [(1 : ℝ)], -5 ≤ a ∧ a ≤ 5) ∧
    (p0.d + (p0.psi.map fun t => t.1 * t.2.1).sum ≤ 9999 * p0.d) ∧
    sumAbs ((p0.f_inv_full ([(1 : ℝ)].map p0.f) 100 none).update) ≤ tol ∧
    (∀ i, ∀ hi : i < [(1 : ℝ)].length,
      ∀ hr : i < ((p0.f_inv_full ([(1 : ℝ)].map p0.f) 100 none).y).length,
      |((p0.f_inv_full ([(1 : ℝ)].map p0.f) 100 none).y)[i] - [(1 : ℝ)][i]| ≤ 1e-6) := by
  have hy : ∀ a ∈ [(1 : ℝ)], -5 ≤ a ∧ a ≤ 5 := by norm_num
  have hslope : p0.d + (p0.psi.map fun t => t.1 * t.2.1).sum ≤ 9999 * p0.d := by
    norm_num [p0]
  have hmap : [(1 : ℝ)].map p0.f = [p0.f 1] := by simp
  have hz0 : 0 < p0.f 1 := by
    rw [p0_f]
    have := tanh_pos (one_pos)
    linarith
  have hstart : startY p0 [p0.f 1] none = [1] := startY_single_pos p0 rfl _ hz0
  have hu : newton_update p0 [p0.f 1] [1] = [0] := by
    simp [newton_update]
  have hsum : sumAbs (newton_update p0 [p0.f 1] (startY p0 [p0.f 1] none)) ≤ tol := by
    rw [hstart, hu]
    simp [sumAbs]
    exact le_of_lt tol_pos
  have hfull := f_inv_full_stop_first p0 [p0.f 1] 100 none hsum
  have hupd : (p0.f_inv_full [p0.f 1] 100 none).update = [0] := by
    rw [hfull]
    show newton_update p0 [p0.f 1] (startY p0 [p0.f 1] none) = [0]
    rw [hstart]
    exact hu
  have hconv : sumAbs ((p0.f_inv_full ([(1 : ℝ)].map p0.f) 100 none).update) ≤ tol := by
    rw [hmap, hupd]
    simp [sumAbs]
    exact le_of_lt tol_pos
  exact ⟨p0_valid, hy, hslope, hconv,
    TanhFunction.f_inv_roundtrip p0 p0_valid [1] hy 100 none
      (by intro m hm; simp at hm) (by intro m hm; simp [p0] at hm) hslope hconv⟩

/-! ### Initialization of the parameters (claim C9) -/

/-- Counterexample to claim C9 as stated: the constructor initializes `psi`
with `np.ones((n_terms, 3))`, so the `c` entry of the first term of a fresh
3-term instance is 1, not 0. -/
theorem TanhFunction.init_c_counterexample :
    ((TanhFunction.init 3 none).psi.headI).2.2 = 1 ∧ (1 : ℝ) ≠ 0 := by
  constructor
  · simp [TanhFunction.init, List.replicate]
  · norm_num

/-- Claim C9, amended: for every number of terms, a freshly constructed
instance has every term initialized to `a = 1, b = 1, c = 1` (all-ones, from
`np.ones((n_terms, 3))`) and the global scalar `d` initialized to 1. -/
theorem TanhFunction.init_parameters (n : ℕ) (hint : Option (List ℝ)) :
    (TanhFunction.init n hint).psi = List.replicate n (1, 1, 1) ∧
    (TanhFunction.init n hint).d = 1 ∧
    ∀ t ∈ (TanhFunction.init n hint).psi, t = ((1 : ℝ), (1 : ℝ), (1 : ℝ)) := by
  refine ⟨rfl, rfl, ?_⟩
  intro t ht
  simp only [TanhFunction.init] at ht
  exact (List.eq_of_mem_replicate ht)

/-- Witness for the amended C9 at `n = 3`: the term `(1,1,1)` is a member of
the fresh parameter list and is indeed all-ones. -/
theorem TanhFunction.init_parameters_witness :
    ((1 : ℝ), (1 : ℝ), (1 : ℝ)) ∈ (TanhFunction.init 3 none).psi ∧
    ((1 : ℝ), (1 : ℝ), (1 : ℝ)) = ((1 : ℝ), (1 : ℝ), (1 : ℝ)) :=
  ⟨by simp [TanhFunction.init], (TanhFunction.init_parameters 3 none).2.2 (1, 1, 1)
    (by simp [TanhFunction.init])⟩

/-! ### Parameter-gradient tensors (claims C6, C7) -/

/-- Per-term pre-activation `S_i = b_i * (y + c_i)`, the tensor `S` computed
by `fgrad_y(return_precalc=True)`. -/
noncomputable def termS (p : TanhFunction) (y : ℝ) (i : Fin p.psi.length) : ℝ :=
  (p.psi.get i).2.1 * (y + (p.psi.get i).2.2)

/-- Per-term activation `R_i = tanh(S_i)`. -/
noncomputable def termR (p : TanhFunction) (y : ℝ) (i : Fin p.psi.length) : ℝ :=
  Real.tanh (termS p y i)

/-- Per-term `D_i = 1 - R_i^2` (called `d` inside `fgrad_y_psi`, shadowing the
parameter `d` of the instance). -/
noncomputable def termD (p : TanhFunction) (y : ℝ) (i : Fin p.psi.length) : ℝ :=
  1 - termR p y i ^ 2

/-- Entry `(i, j)` of the N×T×4 tensor built by `TanhFunction.fgrad_y_psi`
for one scalar input `y` (the N axis is elementwise). The tensor starts as
zeros; the loop fills columns 0..2 (`a`, `b`, `c`) for every term, and
`gradients[:, :, 0, 3] = 1.0` sets the `d` column on term 0 only. -/
noncomputable def TanhFunction.fgrad_y_psi (p : TanhFunction) (y : ℝ)
    (i : Fin p.psi.length) (j : Fin 4) : ℝ :=
  if j = 0 then (p.psi.get i).2.1 * (1 / Real.cosh (termS p y i)) ^ 2
  else if j = 1 then (p.psi.get i).1 *
    (termD p y i - 2 * termS p y i * termR p y i * (1 / Real.cosh (termS p y i)) ^ 2)
  else if j = 2 then -2 * (p.psi.get i).1 * (p.psi.get i).2.1 ^ 2 * termR p y i *
    (1 / Real.cosh (termS p y i)) ^ 2
  else if i.val = 0 then 1 else 0

/-- Entry `(i, j)` of the covariance-chain tensor built by `fgrad_y_psi` with
`return_covar_chain=True`: the partials of the transform value `∂z/∂param`,
with `covar_grad_chain[:, :, 0, 3] = y` on term 0 only. -/
noncomputable def TanhFunction.covar_grad_chain (p : TanhFunction) (y : ℝ)
    (i : Fin p.psi.length) (j : Fin 4) : ℝ :=
  if j = 0 then termR p y i
  else if j = 1 then (p.psi.get i).1 * (y + (p.psi.get i).2.2) *
    (1 / Real.cosh (termS p y i)) ^ 2
  else if j = 2 then (p.psi.get i).1 * (p.psi.get i).2.1 *
    (1 / Real.cosh (termS p y i)) ^ 2
  else if i.val = 0 then y else 0

/-- Claim C6: for every input, every parameter set and every term `i`, with
`S_i = b_i(y + c_i)`, `R_i = tanh S_i`, `D_i = 1 - R_i^2` and
`sech = 1/cosh`: the Jacobian-gradient tensor has a-column
`b_i sech(S_i)^2`, b-column `a_i (D_i - 2 S_i R_i sech(S_i)^2)`, c-column
`-2 a_i b_i^2 R_i sech(S_i)^2`, and d-column 1 on term 0 and 0 elsewhere;
the covariance chain has a-column `R_i`, b-column `a_i (y+c_i) sech(S_i)^2`,
c-column `a_i b_i sech(S_i)^2`, and d-column `y` on term 0 only. -/
theorem TanhFunction.fgrad_y_psi_formulas (p : TanhFunction) (y : ℝ)
    (i : Fin p.psi.length) :
    p.fgrad_y_psi y i 0 =
      (p.psi.get i).2.1 * (1 / Real.cosh (termS p y i)) ^ 2 ∧
    p.fgrad_y_psi y i 1 = (p.psi.get i).1 *
      (termD p y i - 2 * termS p y i * termR p y i *
        (1 / Real.cosh (termS p y i)) ^ 2) ∧
    p.fgrad_y_psi y i 2 = -2 * (p.psi.get i).1 * (p.psi.get i).2.1 ^ 2 *
      termR p y i * (1 / Real.cosh (termS p y i)) ^ 2 ∧
    p.fgrad_y_psi y i 3 = (if i.val = 0 then 1 else 0) ∧
    p.covar_grad_chain y i 0 = termR p y i ∧
    p.covar_grad_chain y i 1 = (p.psi.get i).1 * (y + (p.psi.get i).2.2) *
      (1 / Real.cosh (termS p y i)) ^ 2 ∧
    p.covar_grad_chain y i 2 = (p.psi.get i).1 * (p.psi.get i).2.1 *
      (1 / Real.cosh (termS p y i)) ^ 2 ∧
    p.covar_grad_chain y i 3 = (if i.val = 0 then y else 0) :=
  ⟨rfl, rfl, rfl, rfl, rfl, rfl, rfl, rfl⟩

/-- Per-parameter gradient buffers owned by the parameter set:
`self.psi.gradient` (per term, columns `a`, `b`, `c`) and `self.d.gradient`. -/
structure GradBuffers (T : ℕ) where
  psi_gradient : Fin T → Fin 3 → ℝ
  d_gradient : ℝ

/-- Model of `TanhFunction.update_grads`: computes
`djac_dpsi = Σ_n (1 / fgrad_y(y_n)) * fgrad_y_psi(y_n)` and
`dquad_dpsi = Σ_n Kiy_n * covar_grad_chain(y_n)`, forms
`warping_grads = -dquad_dpsi + djac_dpsi`, then overwrites the buffers:
`psi.gradient[:] = warping_grads[:, :-1]` (columns 0..2) and
`d.gradient[:] = warping_grads[0, -1]`. The incoming buffer contents are
discarded. For an empty term list the source's `warping_grads[0, -1]` would
raise; the model returns 0 there, a case outside the claims (which assume at
least one term). -/
noncomputable def TanhFunction.update_grads (p : TanhFunction) {N : ℕ}
    (Y Kiy : Fin N → ℝ) (bufs : GradBuffers p.psi.length) :
    GradBuffers p.psi.length :=
  let djac : Fin p.psi.length → Fin 4 → ℝ := fun i j =>
    ∑ n, (1 / p.fgrad_y (Y n)) * p.fgrad_y_psi (Y n) i j
  let dquad : Fin p.psi.length → Fin 4 → ℝ := fun i j =>
    ∑ n, Kiy n * p.covar_grad_chain (Y n) i j
  let wg : Fin p.psi.length → Fin 4 → ℝ := fun i j => -dquad i j + djac i j
  { psi_gradient := fun i j => wg i (Fin.castLE (by norm_num) j)
    d_gradient := if h : 0 < p.psi.length then wg ⟨0, h⟩ 3 else 0 }

/-- Claim C7: `update_grads` writes `jacobian_grad - quadratic_grad` into the
buffers — the per-term `(a,b,c)` slice into the term buffers and the shared
slice (term 0, column 3) into `d`'s buffer — overwriting rather than
accumulating, so a second call with the same inputs leaves the same
contents. -/
theorem TanhFunction.update_grads_spec (p : TanhFunction) {N : ℕ}
    (Y Kiy : Fin N → ℝ) (bufs : GradBuffers p.psi.length)
    (h : 0 < p.psi.length) :
    (∀ i : Fin p.psi.length, ∀ j : Fin 3,
      (p.update_grads Y Kiy bufs).psi_gradient i j =
        (∑ n, (1 / p.fgrad_y (Y n)) *
            p.fgrad_y_psi (Y n) i (Fin.castLE (by norm_num) j)) -
        (∑ n, Kiy n *
            p.covar_grad_chain (Y n) i (Fin.castLE (by norm_num) j))) ∧
    ((p.update_grads Y Kiy bufs).d_gradient =
        (∑ n, (1 / p.fgrad_y (Y n)) * p.fgrad_y_psi (Y n) ⟨0, h⟩ 3) -
        (∑ n, Kiy n * p.covar_grad_chain (Y n) ⟨0, h⟩ 3)) ∧
    p.update_grads Y Kiy (p.update_grads Y Kiy bufs) =
      p.update_grads Y Kiy bufs := by
  refine ⟨?_, ?_, rfl⟩
  · intro i j
    simp only [TanhFunction.update_grads]
    ring
  · simp only [TanhFunction.update_grads]
    rw [dif_pos h]
    ring

/-- Witness for C7 at `p0` with one observation `Y = Kiy = 0` and zeroed
buffers. -/
theorem TanhFunction.update_grads_spec_witness :
    0 < p0.psi.length ∧
    p0.update_grads (fun _ : Fin 1 => (0 : ℝ)) (fun _ => 0)
        (p0.update_grads (fun _ : Fin 1 => (0 : ℝ)) (fun _ => 0) ⟨fun _ _ => 0, 0⟩) =
      p0.update_grads (fun _ : Fin 1 => (0 : ℝ)) (fun _ => 0) ⟨fun _ _ => 0, 0⟩ :=
  ⟨by norm_num [p0],
    (TanhFunction.update_grads_spec p0 (fun _ : Fin 1 => (0 : ℝ)) (fun _ => 0)
      ⟨fun _ _ => 0, 0⟩ (by norm_num [p0])).2.2⟩

/-! ### Frame conditions of `f_inv` (claim C10) -/

/-- Heap-level view of one `f_inv` call. Arrays live in a store indexed by
references. The body's `z = z.copy()` makes the loop read the `z` argument's
contents once, into a private copy that later writes cannot alias; each
`y -= update` then mutates the caller-supplied array in place, and the
function returns that same array. No other reference is read or written
during the loop, so the net store effect is the single final write of the
loop result to the `y` reference (when the caller passed none, a fresh array
is allocated at `fresh` instead). -/
noncomputable def TanhFunction.f_inv_effect (p : TanhFunction) (σ : ℕ → List ℝ)
    (zRef : ℕ) (maxIt : ℕ) (yRef? : Option ℕ) (fresh : ℕ) :
    ℕ × (ℕ → List ℝ) :=
  match yRef? with
  | some yRef =>
    (yRef, fun r => if r = yRef
      then (p.f_inv_full (σ zRef) maxIt (some (σ yRef))).y else σ r)
  | none =>
    (fresh, fun r => if r = fresh
      then (p.f_inv_full (σ zRef) maxIt none).y else σ r)

/-- Claim C10: `f_inv` never modifies the array passed as `z` (it is copied
on entry), while a caller-supplied initial-guess array is mutated in place to
the loop result and is the very object returned; all other references are
untouched. -/
theorem TanhFunction.f_inv_frame (p : TanhFunction) (σ : ℕ → List ℝ)
    (zRef yRef maxIt fresh : ℕ) (hne : yRef ≠ zRef) :
    (p.f_inv_effect σ zRef maxIt (some yRef) fresh).1 = yRef ∧
    (p.f_inv_effect σ zRef maxIt (some yRef) fresh).2 zRef = σ zRef ∧
    (p.f_inv_effect σ zRef maxIt (some yRef) fresh).2 yRef =
      (p.f_inv_full (σ zRef) maxIt (some (σ yRef))).y ∧
    ∀ r, r ≠ yRef → (p.f_inv_effect σ zRef maxIt (some yRef) fresh).2 r = σ r := by
  refine ⟨rfl, ?_, ?_, ?_⟩
  · show (if zRef = yRef
      then (p.f_inv_full (σ zRef) maxIt (some (σ yRef))).y else σ zRef) = σ zRef
    rw [if_neg fun h => hne h.symm]
  · show (if yRef = yRef
      then (p.f_inv_full (σ zRef) maxIt (some (σ yRef))).y else σ yRef) =
      (p.f_inv_full (σ zRef) maxIt (some (σ yRef))).y
    rw [if_pos rfl]
  · intro r hr
    show (if r = yRef
      then (p.f_inv_full (σ zRef) maxIt (some (σ yRef))).y else σ r) = σ r
    rw [if_neg hr]

/-- Witness for C10 with an empty store, `zRef = 0`, `yRef = 1`. -/
theorem TanhFunction.f_inv_frame_witness :
    (1 : ℕ) ≠ 0 ∧
    (p0.f_inv_effect (fun _ => []) 0 100 (some 1) 2).1 = 1 :=
  ⟨by norm_num,
    (TanhFunction.f_inv_frame p0 (fun _ => []) 0 1 100 2 (by norm_num)).1⟩

end GPy
